import Mathlib

/-!
Verification of `scripts/clean_data.py` (Sales Record Cleaner).

The script is a single-pass pandas pipeline: read a CSV, normalize the three
text columns (trim, collapse whitespace, Python `str.title()`), coerce
`price`/`quantity` with `pd.to_numeric(errors="coerce")`, parse `order_date`
with `pd.to_datetime(errors="coerce", dayfirst=True)`, flag and fill missing
quantities with 1, drop exact duplicate rows, drop rows missing
`price`/`quantity`/`order_date`, derive `revenue = price * quantity`, and
write the result.

Shallow embedding: a dataframe is a list of records; a cell is an explicit
sum of "missing" (NaN/NaT), a string, a rational number (float64 columns are
modelled exactly by rationals) and a calendar date (datetime64 values).
Character-level text operations model Python semantics on the ASCII range.
-/

/-- A calendar date as held in a `datetime64` cell (time-of-day is never
used by the script). -/
structure Date where
  year : Nat
  month : Nat
  day : Nat
deriving DecidableEq

/-- One dataframe cell: NaN/NaT ("missing"), a string, a float64 value
(modelled as an exact rational) or a datetime64 value. -/
inductive Cell where
  | missing
  | str (s : String)
  | num (q : ℚ)
  | date (d : Date)
deriving DecidableEq

/-- A raw input record: the seven columns of `data/raw_sales_data.csv`
exactly as `pd.read_csv` delivers them (strings, inferred numbers, or NaN;
`read_csv` is not asked to parse dates, so no `date` cells occur in raw
data -- the constructor exists so that a second pass over already-cleaned
data is expressible). -/
structure RawRecord where
  order_id : Cell
  customer_name : Cell
  city : Cell
  product : Cell
  price : Cell
  quantity : Cell
  order_date : Cell
deriving DecidableEq

/-- The dataframe row after steps 1-4 of `main` (normalization, numeric and
date coercion, quantity flag and fill): the columns `price`/`quantity` are
float64 (NaN = `none`), `order_date` is datetime64 (NaT = `none`). -/
structure Row where
  order_id : Cell
  customer_name : Cell
  city : Cell
  product : Cell
  price : Option ℚ
  quantity : Option ℚ
  order_date : Option Date
  quantity_was_missing : Bool
deriving DecidableEq

/-- A final output record (step 8 adds `revenue`; step 9 merely fixes the
column order, which a record structure already carries). -/
structure CleanRecord where
  order_id : Cell
  customer_name : Cell
  city : Cell
  product : Cell
  price : Option ℚ
  quantity : Option ℚ
  order_date : Option Date
  revenue : Option ℚ
  quantity_was_missing : Bool
deriving DecidableEq

/-! ## Character-level text primitives

Python's `str.strip`, `re.sub(r"\s+", " ", s)` and `str.title` restricted to
the ASCII range: whitespace is `\s` = space, `\t`, `\n`, `\r`, `\v`, `\f`;
`str.title` uppercases every cased character that follows a non-cased
character and lowercases every other cased character, where for ASCII the
cased characters are the letters. -/

/-- ASCII whitespace, the `\s` class on ASCII text. -/
def asciiWs (c : Char) : Bool :=
  c.toNat = 32 || c.toNat = 9 || c.toNat = 10 || c.toNat = 13 || c.toNat = 11 || c.toNat = 12

/-- ASCII letter: the cased characters of the ASCII range, which is what
`str.title` uses as word characters. -/
def pyAlpha (c : Char) : Bool :=
  (65 ≤ c.toNat && c.toNat ≤ 90) || (97 ≤ c.toNat && c.toNat ≤ 122)

/-- ASCII uppercasing, as `str.upper` acts on one ASCII character. -/
def pyUpper (c : Char) : Char :=
  if 97 ≤ c.toNat ∧ c.toNat ≤ 122 then Char.ofNat (c.toNat - 32) else c

/-- ASCII lowercasing, as `str.lower` acts on one ASCII character. -/
def pyLower (c : Char) : Char :=
  if 65 ≤ c.toNat ∧ c.toNat ≤ 90 then Char.ofNat (c.toNat + 32) else c

/-- Drop leading whitespace: Python `str.lstrip()`. -/
def lstripL (l : List Char) : List Char :=
  l.dropWhile asciiWs

/-- Drop trailing whitespace: Python `str.rstrip()`. -/
def rstripL (l : List Char) : List Char :=
  (l.reverse.dropWhile asciiWs).reverse

/-- Python `str.strip()`: drop leading and trailing whitespace. -/
def stripL (l : List Char) : List Char :=
  rstripL (lstripL l)

/-- `re.sub(r"\s+", " ", s)`: each maximal run of whitespace becomes one
space.  The flag records whether the previous character was whitespace
(i.e. whether we are inside a run whose single space was already emitted). -/
def collapseAux (inRun : Bool) : List Char → List Char
  | [] => []
  | c :: rest =>
    if asciiWs c then
      (if inRun then [] else [' ']) ++ collapseAux true rest
    else
      c :: collapseAux false rest

/-- `re.sub(r"\s+", " ", s)` on a whole string. -/
def collapseWs (l : List Char) : List Char :=
  collapseAux false l

/-- One character of `str.title()`: a letter is uppercased at a word start
(previous character not a letter) and lowercased otherwise; any other
character is left alone. -/
def titleMap (prevAlpha : Bool) (c : Char) : Char :=
  if pyAlpha c then (if prevAlpha then pyLower c else pyUpper c) else c

/-- `str.title()`: the flag holds whether the previous character was a
letter (Python: whether it was cased). -/
def titleAux (prevAlpha : Bool) : List Char → List Char
  | [] => []
  | c :: rest => titleMap prevAlpha c :: titleAux (pyAlpha c) rest

/-- `str.title()` on a whole string, starting at a word boundary. -/
def pyTitle (l : List Char) : List Char :=
  titleAux false l

/-- `str(value)` for the cell contents the text columns can hold.  Raw CSV
text cells are always strings; the rendering of the other constructors is a
simple placeholder (never reached by any theorem below). -/
def cellToString (c : Cell) : String :=
  match c with
  | .missing => "nan"
  | .str s => s
  | .num q => toString q
  | .date d => toString d.year ++ "-" ++ toString d.month ++ "-" ++ toString d.day

/-- The composite normalization `s.strip()`, `re.sub(r"\s+"," ",s)`,
`s.title()` of `standardize_city` and friends, at string level. -/
def normStr (s : String) : String :=
  String.mk (pyTitle (collapseWs (stripL s.data)))

/-- `standardize_city` from the source: propagate NaN, otherwise trim,
collapse whitespace and title-case. -/
def standardize_city (city : Cell) : Cell :=
  match city with
  | .missing => .missing
  | c => .str (normStr (cellToString c))

/-- `standardize_name` from the source (same body as `standardize_city`). -/
def standardize_name (name : Cell) : Cell :=
  match name with
  | .missing => .missing
  | c => .str (normStr (cellToString c))

/-- `standardize_product` from the source (same body again). -/
def standardize_product (product : Cell) : Cell :=
  match product with
  | .missing => .missing
  | c => .str (normStr (cellToString c))

/-! ## Numeric coercion

`pd.to_numeric(series, errors="coerce")` is pandas library code.  Modelled
from the spec: "parse it as a decimal number; any value that cannot be
parsed (non-numeric text, empty) yields missing rather than failing the
pipeline" -- optional sign, decimal digits with at most one decimal point,
surrounding whitespace tolerated; no exponents, thousands separators or
currency symbols (per the spec such values become missing). -/

/-- ASCII decimal digit. -/
def asciiDigit (c : Char) : Bool :=
  48 ≤ c.toNat && c.toNat ≤ 57

/-- The number a digit string denotes (most significant first). -/
def digitsToNat (l : List Char) : Nat :=
  l.foldl (fun acc c => acc * 10 + (c.toNat - 48)) 0

/-- Parse an unsigned decimal: digits, optionally a point and more digits,
with at least one digit overall. -/
def parseUnsigned (l : List Char) : Option ℚ :=
  let ip := l.takeWhile asciiDigit
  match l.dropWhile asciiDigit with
  | [] => if ip.isEmpty then none else some (digitsToNat ip)
  | c :: fp =>
    if c = '.' && fp.all asciiDigit && !(ip.isEmpty && fp.isEmpty) then
      some ((digitsToNat ip : ℚ) + (digitsToNat fp : ℚ) / (10 : ℚ) ^ fp.length)
    else none

/-- Modelled from the spec: the decimal parser behind
`pd.to_numeric(errors="coerce")` for one string cell. -/
def parseNumber (s : String) : Option ℚ :=
  match stripL s.data with
  | '-' :: rest => (parseUnsigned rest).map Neg.neg
  | '+' :: rest => parseUnsigned rest
  | l => parseUnsigned l

/-- `pd.to_numeric(cell, errors="coerce")`: NaN stays NaN, numbers pass
through, strings parse or coerce to NaN.  A datetime cell never meets this
coercion in the script (the raw file holds no datetime cells and the date
column is not fed to `to_numeric`); it coerces to missing here. -/
def toNumericCell (c : Cell) : Option ℚ :=
  match c with
  | .missing => none
  | .str s => parseNumber s
  | .num q => some q
  | .date _ => none

/-! ## Date coercion

`pd.to_datetime(series, errors="coerce", dayfirst=True)` is pandas library
code.  Modelled from the spec: "given a raw date string, parse it into a
calendar date, preferring day-before-month interpretation when the format
is ambiguous (e.g., \"03-06-2023\" parses as June 3rd, not March 6th).
Unparseable or empty values yield missing.  Must tolerate mixed formats
within the same dataset" -- covered formats are the numeric
day-month-year and year-month-day forms separated by `-` or `/`. -/

/-- Gregorian leap year. -/
def isLeap (y : Nat) : Bool :=
  (y % 4 = 0 && y % 100 ≠ 0) || y % 400 = 0

/-- Days in a month of the proleptic Gregorian calendar. -/
def daysInMonth (y m : Nat) : Nat :=
  if m = 2 then (if isLeap y then 29 else 28)
  else if m = 4 ∨ m = 6 ∨ m = 9 ∨ m = 11 then 30
  else 31

/-- A calendar-valid date, or none. -/
def mkDate (y m d : Nat) : Option Date :=
  if 1 ≤ m ∧ m ≤ 12 ∧ 1 ≤ d ∧ d ≤ daysInMonth y m then some ⟨y, m, d⟩ else none

/-- Resolve the numeric triple `a-b-c` (year last) with `dayfirst=True`:
first read it day-month-year; only if that is not a valid calendar date,
fall back to month-day-year (dateutil's behaviour, e.g. "06-14-2023"). -/
def resolveDMY (a b c : Nat) : Option Date :=
  match mkDate c b a with
  | some d => some d
  | none => mkDate c a b

/-- Split on `-` and `/` separators. -/
def splitSepAux (acc : List Char) : List Char → List (List Char)
  | [] => [acc.reverse]
  | c :: rest =>
    if c = '-' ∨ c = '/' then acc.reverse :: splitSepAux [] rest
    else splitSepAux (c :: acc) rest

/-- A nonempty all-digit field, as a number. -/
def digitField (l : List Char) : Option Nat :=
  if !l.isEmpty && l.all asciiDigit then some (digitsToNat l) else none

/-- Modelled from the spec: the date parser behind
`pd.to_datetime(errors="coerce", dayfirst=True)` for one string cell.
A four-digit first field is read year-month-day; a four-digit last field is
read with the day-first preference; anything else is unparseable. -/
def parseDateDayfirst (s : String) : Option Date :=
  match splitSepAux [] (stripL s.data) with
  | [x, y, z] =>
    match digitField x, digitField y, digitField z with
    | some nx, some ny, some nz =>
      if x.length = 4 then mkDate nx ny nz
      else if z.length = 4 then resolveDMY nx ny nz
      else none
    | _, _, _ => none
  | _ => none

/-- `pd.to_datetime(cell, errors="coerce", dayfirst=True)`: NaN stays NaT,
datetime cells pass through, strings parse or coerce to NaT; a float cell in
a date column never occurs in the script's data and coerces to NaT here. -/
def toDatetimeCell (c : Cell) : Option Date :=
  match c with
  | .missing => none
  | .str s => parseDateDayfirst s
  | .num _ => none
  | .date d => some d

/-! ## The pipeline of `main` (steps 1-9) -/

/-- `Series.fillna(v)` on one float64 cell. -/
def fillna (o : Option ℚ) (v : ℚ) : Option ℚ :=
  some (o.getD v)

/-- Steps 1-4 of `main` on one record: standardize the text columns, coerce
`price` and `quantity` to numbers and `order_date` to a date, record
`quantity_was_missing = quantity.isna()` and fill missing quantities
with 1.  All four steps are per-column, hence per-record. -/
def processRow (r : RawRecord) : Row :=
  let qna := toNumericCell r.quantity
  { order_id := r.order_id
    customer_name := standardize_name r.customer_name
    city := standardize_city r.city
    product := standardize_product r.product
    price := toNumericCell r.price
    quantity := fillna qna 1
    order_date := toDatetimeCell r.order_date
    quantity_was_missing := qna.isNone }

/-- `df.drop_duplicates()` keeps the first occurrence of every row value;
pandas compares NaN equal to NaN here, matching structural equality of
`Row` (where missing = `none` compares equal to `none`). -/
def dropDupAux (seen : List Row) : List Row → List Row
  | [] => []
  | r :: rest =>
    if r ∈ seen then dropDupAux seen rest
    else r :: dropDupAux (r :: seen) rest

/-- `df.drop_duplicates()` (step 5). -/
def dropDuplicates (l : List Row) : List Row :=
  dropDupAux [] l

/-- `df.dropna(subset=["price", "quantity", "order_date"])` predicate
(step 7): the row survives iff all three critical fields are present. -/
def dropnaCritical (r : Row) : Bool :=
  r.price.isSome && r.quantity.isSome && r.order_date.isSome

/-- NaN-propagating float64 multiplication, `df["price"] * df["quantity"]`. -/
def omul (a b : Option ℚ) : Option ℚ :=
  match a, b with
  | some x, some y => some (x * y)
  | _, _ => none

/-- Step 8: attach `revenue = price * quantity` to a surviving row. -/
def addRevenue (r : Row) : CleanRecord :=
  { order_id := r.order_id
    customer_name := r.customer_name
    city := r.city
    product := r.product
    price := r.price
    quantity := r.quantity
    order_date := r.order_date
    revenue := omul r.price r.quantity
    quantity_was_missing := r.quantity_was_missing }

/-- The whole in-memory transformation of `main` (steps 1-9): per-record
processing, duplicate removal, the critical-field filter, and the derived
column.  Step 6 (duplicate `order_id` report) and the console diagnostics
only print and do not alter the dataframe; step 9 fixes the column order,
which the record structure already carries. -/
def cleanRows (rows : List RawRecord) : List CleanRecord :=
  ((dropDuplicates (rows.map processRow)).filter dropnaCritical).map addRevenue

/-- The driver around the pipeline (lines 46-55 and 119): if the input file
is absent the script raises `FileNotFoundError` before reading or
transforming anything; otherwise the cleaned records are what it writes.
The filesystem is abstracted to the optional record list the input file
holds. -/
def run_main (input : Option (List RawRecord)) : Except String (List CleanRecord) :=
  match input with
  | none => Except.error "Input file not found"
  | some rows => Except.ok (cleanRows rows)

/-- Whether a run produced an output dataset. -/
def producedOutput (r : Except String (List CleanRecord)) : Bool :=
  match r with
  | .ok _ => true
  | .error _ => false

/-! ## Character-level facts about the ASCII case maps -/

/-- `Char.ofNat` inverts `Char.toNat` below the surrogate range. -/
theorem charToNat_ofNat_small (n : Nat) (h : n < 55296) : (Char.ofNat n).toNat = n := by
  have hv : n.isValidChar := Or.inl h
  simp [Char.ofNat, hv, Char.ofNatAux, Char.toNat, UInt32.toNat]

/-- The code point `pyUpper` produces. -/
theorem toNat_pyUpper (c : Char) :
    (pyUpper c).toNat = if 97 ≤ c.toNat ∧ c.toNat ≤ 122 then c.toNat - 32 else c.toNat := by
  unfold pyUpper
  split
  · next h => rw [charToNat_ofNat_small _ (by omega)]
  · rfl

/-- The code point `pyLower` produces. -/
theorem toNat_pyLower (c : Char) :
    (pyLower c).toNat = if 65 ≤ c.toNat ∧ c.toNat ≤ 90 then c.toNat + 32 else c.toNat := by
  unfold pyLower
  split
  · next h => rw [charToNat_ofNat_small _ (by omega)]
  · rfl

/-- Uppercasing keeps a letter a letter and a non-letter a non-letter. -/
theorem pyAlpha_pyUpper (c : Char) : pyAlpha (pyUpper c) = pyAlpha c := by
  rw [Bool.eq_iff_iff]
  simp only [pyAlpha, toNat_pyUpper, Bool.or_eq_true, Bool.and_eq_true, decide_eq_true_eq]
  split
  · next h => omega
  · next h => omega

/-- Lowercasing keeps a letter a letter and a non-letter a non-letter. -/
theorem pyAlpha_pyLower (c : Char) : pyAlpha (pyLower c) = pyAlpha c := by
  rw [Bool.eq_iff_iff]
  simp only [pyAlpha, toNat_pyLower, Bool.or_eq_true, Bool.and_eq_true, decide_eq_true_eq]
  split
  · next h => omega
  · next h => omega

/-- Uppercasing does not change whether a character is whitespace. -/
theorem asciiWs_pyUpper (c : Char) : asciiWs (pyUpper c) = asciiWs c := by
  rw [Bool.eq_iff_iff]
  simp only [asciiWs, toNat_pyUpper, Bool.or_eq_true, decide_eq_true_eq]
  split
  · next h => omega
  · next h => omega

/-- Lowercasing does not change whether a character is whitespace. -/
theorem asciiWs_pyLower (c : Char) : asciiWs (pyLower c) = asciiWs c := by
  rw [Bool.eq_iff_iff]
  simp only [asciiWs, toNat_pyLower, Bool.or_eq_true, decide_eq_true_eq]
  split
  · next h => omega
  · next h => omega

/-- Uppercasing is idempotent on every character. -/
theorem pyUpper_pyUpper (c : Char) : pyUpper (pyUpper c) = pyUpper c := by
  unfold pyUpper
  split
  · next h =>
    have h2 : ¬ (97 ≤ (Char.ofNat (c.toNat - 32)).toNat ∧ (Char.ofNat (c.toNat - 32)).toNat ≤ 122) := by
      rw [charToNat_ofNat_small _ (by omega)]
      omega
    simp [h2]
  · next h => simp [h]

/-- Lowercasing is idempotent on every character. -/
theorem pyLower_pyLower (c : Char) : pyLower (pyLower c) = pyLower c := by
  unfold pyLower
  split
  · next h =>
    have h2 : ¬ (65 ≤ (Char.ofNat (c.toNat + 32)).toNat ∧ (Char.ofNat (c.toNat + 32)).toNat ≤ 90) := by
      rw [charToNat_ofNat_small _ (by omega)]
      omega
    simp [h2]
  · next h => simp [h]

/-- Whitespace is never a letter. -/
theorem asciiWs_not_pyAlpha (c : Char) (h : asciiWs c = true) : pyAlpha c = false := by
  simp only [asciiWs, Bool.or_eq_true, decide_eq_true_eq] at h
  simp only [pyAlpha, Bool.or_eq_true, Bool.and_eq_true, decide_eq_true_eq,
    Bool.eq_false_iff, ne_eq, not_or, not_and]
  omega

/-- `titleMap` does not change whether a character is whitespace. -/
theorem asciiWs_titleMap (b : Bool) (c : Char) : asciiWs (titleMap b c) = asciiWs c := by
  unfold titleMap
  split
  · cases b
    · exact asciiWs_pyUpper c
    · exact asciiWs_pyLower c
  · rfl

/-- `titleMap` does not change whether a character is a letter. -/
theorem pyAlpha_titleMap (b : Bool) (c : Char) : pyAlpha (titleMap b c) = pyAlpha c := by
  unfold titleMap
  split
  · cases b
    · exact pyAlpha_pyUpper c
    · exact pyAlpha_pyLower c
  · rfl

/-- `titleMap` leaves whitespace characters untouched. -/
theorem titleMap_ws (b : Bool) (c : Char) (h : asciiWs c = true) : titleMap b c = c := by
  unfold titleMap
  rw [asciiWs_not_pyAlpha c h]
  simp

/-- `titleMap` is idempotent at a fixed boundary flag. -/
theorem titleMap_titleMap (b : Bool) (c : Char) : titleMap b (titleMap b c) = titleMap b c := by
  unfold titleMap
  by_cases ha : pyAlpha c = true
  · cases b
    · simp only [ha, if_true, if_pos, pyAlpha_pyUpper, cond_true]
      simp [ha, pyUpper_pyUpper]
    · simp only [ha, if_true]
      simp [pyAlpha_pyLower, ha, pyLower_pyLower]
  · simp only [Bool.not_eq_true] at ha
    simp [ha]

/-! ## Whitespace structure of strings

To show the text normalization is stable we track four facts about a
character list: its first and last characters are not whitespace, no two
adjacent characters are both whitespace, and every whitespace character is
a plain space.  Stripping and collapsing establish them; title-casing
preserves them; on a list with all four, each of the three steps is the
identity. -/

/-- The first character, if any, is not whitespace. -/
def headNotWs (l : List Char) : Bool :=
  match l.head? with
  | none => true
  | some c => !asciiWs c

/-- The last character, if any, is not whitespace. -/
def lastNotWs (l : List Char) : Bool :=
  match l.getLast? with
  | none => true
  | some c => !asciiWs c

/-- No two adjacent whitespace characters; the flag says whether the
(virtual) previous character was whitespace. -/
def noRunAux (prevWs : Bool) : List Char → Bool
  | [] => true
  | c :: rest => !(prevWs && asciiWs c) && noRunAux (asciiWs c) rest

/-- Every whitespace character is a plain space. -/
def wsIsSpace (l : List Char) : Bool :=
  l.all (fun c => !asciiWs c || c = ' ')

/-- `headNotWs` on a cons. -/
theorem headNotWs_cons (c : Char) (l : List Char) : headNotWs (c :: l) = !asciiWs c := rfl

/-- `lastNotWs` on a singleton. -/
theorem lastNotWs_singleton (c : Char) : lastNotWs [c] = !asciiWs c := rfl

/-- `lastNotWs` ignores the first of two or more characters. -/
theorem lastNotWs_cons_cons (a b : Char) (l : List Char) :
    lastNotWs (a :: b :: l) = lastNotWs (b :: l) := by
  simp [lastNotWs, List.getLast?_cons_cons]

/-- Reversal swaps the two end conditions. -/
theorem lastNotWs_reverse (l : List Char) : lastNotWs l.reverse = headNotWs l := by
  simp [lastNotWs, headNotWs, List.getLast?_reverse]

/-- Reversal swaps the two end conditions. -/
theorem headNotWs_reverse (l : List Char) : headNotWs l.reverse = lastNotWs l := by
  simp [headNotWs, lastNotWs, List.head?_reverse]

/-- After dropping leading whitespace the head is not whitespace. -/
theorem headNotWs_dropWhile (l : List Char) : headNotWs (l.dropWhile asciiWs) = true := by
  induction l with
  | nil => rfl
  | cons c rest ih =>
    by_cases h : asciiWs c = true
    · simpa [List.dropWhile_cons, h] using ih
    · simp [List.dropWhile_cons, h, headNotWs_cons]

/-- `dropWhile` keeps the last element when its result is nonempty. -/
theorem getLast?_dropWhile (p : Char → Bool) (l : List Char)
    (h : l.dropWhile p ≠ []) : (l.dropWhile p).getLast? = l.getLast? := by
  induction l with
  | nil => simp at h
  | cons c rest ih =>
    by_cases hc : p c = true
    · rw [List.dropWhile_cons, if_pos hc] at h ⊢
      have hrest : rest ≠ [] := by
        intro he
        subst he
        simp at h
      rw [ih h]
      match rest, hrest with
      | r :: rest2, _ => rw [List.getLast?_cons_cons]
    · rw [List.dropWhile_cons, if_neg hc]

/-- Right-stripping leaves no trailing whitespace. -/
theorem lastNotWs_rstripL (l : List Char) : lastNotWs (rstripL l) = true := by
  unfold rstripL
  rw [lastNotWs_reverse]
  exact headNotWs_dropWhile l.reverse

/-- Right-stripping keeps the head clean. -/
theorem headNotWs_rstripL (l : List Char) (h : headNotWs l = true) :
    headNotWs (rstripL l) = true := by
  unfold rstripL
  by_cases hnil : l.reverse.dropWhile asciiWs = []
  · rw [hnil]
    rfl
  · rw [headNotWs_reverse, lastNotWs, getLast?_dropWhile _ _ hnil, List.getLast?_reverse]
    cases l with
    | nil => rfl
    | cons c rest => simpa [headNotWs_cons] using h

/-- Stripping leaves no leading whitespace. -/
theorem headNotWs_stripL (l : List Char) : headNotWs (stripL l) = true :=
  headNotWs_rstripL _ (headNotWs_dropWhile l)

/-- Stripping leaves no trailing whitespace. -/
theorem lastNotWs_stripL (l : List Char) : lastNotWs (stripL l) = true :=
  lastNotWs_rstripL _

/-- `dropWhile` is the identity when the head already fails the predicate. -/
theorem dropWhile_eq_self_of_headNotWs (l : List Char) (h : headNotWs l = true) :
    l.dropWhile asciiWs = l := by
  cases l with
  | nil => rfl
  | cons c rest =>
    rw [headNotWs_cons, Bool.not_eq_true'] at h
    rw [List.dropWhile_cons, if_neg (by simp [h])]

/-- Stripping a string with clean ends changes nothing. -/
theorem stripL_eq_self (l : List Char) (h1 : headNotWs l = true) (h2 : lastNotWs l = true) :
    stripL l = l := by
  unfold stripL lstripL rstripL
  rw [dropWhile_eq_self_of_headNotWs l h1]
  rw [dropWhile_eq_self_of_headNotWs l.reverse (by rw [headNotWs_reverse]; exact h2)]
  exact List.reverse_reverse l

/-- With the run flag down, collapsing never empties a nonempty list. -/
theorem collapseAux_false_ne_nil (l : List Char) (h : l ≠ []) : collapseAux false l ≠ [] := by
  cases l with
  | nil => exact absurd rfl h
  | cons c rest =>
    unfold collapseAux
    by_cases hc : asciiWs c = true <;> simp [hc]

/-- Collapsing a nonempty list with a non-whitespace last character is nonempty. -/
theorem collapseAux_ne_nil_of_last (b : Bool) (l : List Char)
    (hl : lastNotWs l = true) (h : l ≠ []) : collapseAux b l ≠ [] := by
  induction l generalizing b with
  | nil => exact absurd rfl h
  | cons c rest ih =>
    cases rest with
    | nil =>
      rw [lastNotWs_singleton, Bool.not_eq_true'] at hl
      unfold collapseAux
      simp [hl]
    | cons r rest2 =>
      rw [lastNotWs_cons_cons] at hl
      unfold collapseAux
      by_cases hc : asciiWs c = true
      · rw [if_pos hc]
        cases b
        · simp
        · simpa using ih true hl (by simp)
      · simp [hc]

/-- Inside a run, the collapsed remainder starts with a non-whitespace
character (the run's single space was already emitted). -/
theorem headNotWs_collapseAux_true (l : List Char) : headNotWs (collapseAux true l) = true := by
  induction l with
  | nil => rfl
  | cons c rest ih =>
    unfold collapseAux
    by_cases hc : asciiWs c = true
    · simpa [hc] using ih
    · simp [hc, headNotWs_cons]

/-- Collapsing keeps a clean head clean. -/
theorem headNotWs_collapseAux_false (l : List Char) (h : headNotWs l = true) :
    headNotWs (collapseAux false l) = true := by
  cases l with
  | nil => rfl
  | cons c rest =>
    rw [headNotWs_cons, Bool.not_eq_true'] at h
    unfold collapseAux
    simp [h, headNotWs_cons]

/-- Collapsing keeps a clean tail clean. -/
theorem lastNotWs_collapseAux (b : Bool) (l : List Char) (h : lastNotWs l = true) :
    lastNotWs (collapseAux b l) = true := by
  induction l generalizing b with
  | nil => rfl
  | cons c rest ih =>
    cases rest with
    | nil =>
      rw [lastNotWs_singleton, Bool.not_eq_true'] at h
      simp [collapseAux, h, lastNotWs_singleton]
    | cons r rest2 =>
      rw [lastNotWs_cons_cons] at h
      have hne : collapseAux true (r :: rest2) ≠ [] :=
        collapseAux_ne_nil_of_last true _ h (by simp)
      unfold collapseAux
      by_cases hc : asciiWs c = true
      · rw [if_pos hc]
        have hlast : lastNotWs (collapseAux true (r :: rest2)) = true := ih true h
        cases b
        · simp only [if_neg (by simp : ¬ (false = true)), List.singleton_append]
          match hX : collapseAux true (r :: rest2), hne with
          | x :: xs, _ =>
            rw [lastNotWs_cons_cons]
            rw [hX] at hlast
            exact hlast
        · simpa using hlast
      · rw [if_neg (by simp [hc])]
        have hne2 : collapseAux false (r :: rest2) ≠ [] := collapseAux_false_ne_nil _ (by simp)
        have hlast : lastNotWs (collapseAux false (r :: rest2)) = true := ih false h
        match hX : collapseAux false (r :: rest2), hne2 with
        | x :: xs, _ =>
          rw [lastNotWs_cons_cons]
          rw [hX] at hlast
          exact hlast

/-- A collapsed list has no two adjacent whitespace characters. -/
theorem noRunAux_collapseAux (p b : Bool) (l : List Char) (hpb : p = true → b = true) :
    noRunAux p (collapseAux b l) = true := by
  induction l generalizing p b with
  | nil => rfl
  | cons c rest ih =>
    unfold collapseAux
    by_cases hc : asciiWs c = true
    · rw [if_pos hc]
      cases b
      · have hp : p = false := by
          cases p
          · rfl
          · exact absurd (hpb rfl) (by simp)
        subst hp
        simp only [if_neg (by simp : ¬ (false = true)), List.singleton_append]
        unfold noRunAux
        simp only [Bool.false_and, Bool.not_false, Bool.true_and]
        exact ih true true (fun _ => rfl)
      · simpa using ih p true (fun _ => rfl)
    · rw [if_neg (by simp [hc])]
      unfold noRunAux
      simp only [hc, Bool.and_false, Bool.not_false, Bool.true_and]
      exact ih false false (by simp)

/-- A collapsed list only contains plain spaces as whitespace. -/
theorem wsIsSpace_collapseAux (b : Bool) (l : List Char) :
    wsIsSpace (collapseAux b l) = true := by
  induction l generalizing b with
  | nil => rfl
  | cons c rest ih =>
    unfold collapseAux
    by_cases hc : asciiWs c = true
    · rw [if_pos hc]
      cases b
      · simp only [if_neg (by simp : ¬ (false = true)), List.singleton_append]
        rw [wsIsSpace, List.all_cons]
        simp only [Bool.and_eq_true]
        exact ⟨by simp, ih true⟩
      · simpa using ih true
    · rw [if_neg (by simp [hc])]
      rw [wsIsSpace, List.all_cons]
      simp only [Bool.and_eq_true]
      exact ⟨by simp [hc], ih false⟩

/-- Collapsing a list with no whitespace runs and only plain spaces changes
nothing. -/
theorem collapseAux_eq_self (b : Bool) (l : List Char)
    (h1 : noRunAux b l = true) (h2 : wsIsSpace l = true) : collapseAux b l = l := by
  induction l generalizing b with
  | nil => rfl
  | cons c rest ih =>
    unfold noRunAux at h1
    rw [Bool.and_eq_true] at h1
    obtain ⟨hb, hrest⟩ := h1
    rw [wsIsSpace, List.all_cons, Bool.and_eq_true] at h2
    obtain ⟨hc2, hrest2⟩ := h2
    unfold collapseAux
    by_cases hc : asciiWs c = true
    · rw [if_pos hc]
      have hbf : b = false := by
        cases b
        · rfl
        · rw [hc] at hb
          simp at hb
      subst hbf
      have hsp : c = ' ' := by
        rw [hc] at hc2
        simpa using hc2
      rw [hc] at hrest
      simp only [if_neg (by simp : ¬ (false = true)), List.singleton_append, hsp]
      rw [ih true hrest hrest2]
    · rw [if_neg (by simp [hc])]
      have hcf : asciiWs c = false := by simpa using hc
      rw [hcf] at hrest
      rw [ih false hrest hrest2]

/-- Title-casing does not move whitespace: the head condition survives. -/
theorem headNotWs_titleAux (b : Bool) (l : List Char) :
    headNotWs (titleAux b l) = headNotWs l := by
  cases l with
  | nil => rfl
  | cons c rest =>
    rw [titleAux, headNotWs_cons, headNotWs_cons, asciiWs_titleMap]

/-- Title-casing does not move whitespace: the tail condition survives. -/
theorem lastNotWs_titleAux (b : Bool) (l : List Char) :
    lastNotWs (titleAux b l) = lastNotWs l := by
  induction l generalizing b with
  | nil => rfl
  | cons c rest ih =>
    cases rest with
    | nil => rw [titleAux, titleAux, lastNotWs_singleton, lastNotWs_singleton, asciiWs_titleMap]
    | cons r rest2 =>
      rw [titleAux, titleAux, lastNotWs_cons_cons, lastNotWs_cons_cons, ← titleAux]
      exact ih (pyAlpha c)

/-- Title-casing does not move whitespace: runs are unchanged. -/
theorem noRunAux_titleAux (p b : Bool) (l : List Char) :
    noRunAux p (titleAux b l) = noRunAux p l := by
  induction l generalizing p b with
  | nil => rfl
  | cons c rest ih =>
    rw [titleAux, noRunAux, noRunAux, asciiWs_titleMap, ih (asciiWs c) (pyAlpha c)]

/-- Title-casing leaves whitespace characters as they are. -/
theorem wsIsSpace_titleAux (b : Bool) (l : List Char) (h : wsIsSpace l = true) :
    wsIsSpace (titleAux b l) = true := by
  induction l generalizing b with
  | nil => rfl
  | cons c rest ih =>
    rw [wsIsSpace, List.all_cons, Bool.and_eq_true] at h
    obtain ⟨hc, hrest⟩ := h
    rw [titleAux, wsIsSpace, List.all_cons, Bool.and_eq_true]
    constructor
    · by_cases hw : asciiWs c = true
      · rw [titleMap_ws b c hw]
        exact hc
      · have : asciiWs (titleMap b c) = false := by
          rw [asciiWs_titleMap]
          simpa using hw
        simp [this]
    · exact ih (pyAlpha c) hrest

/-- `str.title()` is idempotent. -/
theorem titleAux_titleAux (b : Bool) (l : List Char) :
    titleAux b (titleAux b l) = titleAux b l := by
  induction l generalizing b with
  | nil => rfl
  | cons c rest ih =>
    rw [titleAux, titleAux, titleMap_titleMap, pyAlpha_titleMap]
    rw [ih (pyAlpha c)]

/-- The strip-collapse-title normalization is idempotent. -/
theorem normStr_idem (s : String) : normStr (normStr s) = normStr s := by
  unfold normStr pyTitle collapseWs
  have hdata : (String.mk (titleAux false (collapseAux false (stripL s.data)))).data
      = titleAux false (collapseAux false (stripL s.data)) := rfl
  rw [hdata]
  have hhead : headNotWs (titleAux false (collapseAux false (stripL s.data))) = true := by
    rw [headNotWs_titleAux]
    exact headNotWs_collapseAux_false _ (headNotWs_stripL s.data)
  have hlast : lastNotWs (titleAux false (collapseAux false (stripL s.data))) = true := by
    rw [lastNotWs_titleAux]
    exact lastNotWs_collapseAux false _ (lastNotWs_stripL s.data)
  rw [stripL_eq_self _ hhead hlast]
  have hrun : noRunAux false (titleAux false (collapseAux false (stripL s.data))) = true := by
    rw [noRunAux_titleAux]
    exact noRunAux_collapseAux false false _ (by simp)
  have hsp : wsIsSpace (titleAux false (collapseAux false (stripL s.data))) = true :=
    wsIsSpace_titleAux false _ (wsIsSpace_collapseAux false _)
  rw [collapseAux_eq_self false _ hrun hsp]
  rw [titleAux_titleAux]

/-- The three standardizers are one function of the cell. -/
theorem standardize_all_eq (c : Cell) :
    standardize_name c = standardize_city c ∧ standardize_product c = standardize_city c := by
  cases c <;> simp [standardize_name, standardize_city, standardize_product]

/-- `standardize_city` is idempotent on cells. -/
theorem standardize_city_idem (c : Cell) :
    standardize_city (standardize_city c) = standardize_city c := by
  cases c with
  | missing => rfl
  | str s => simp [standardize_city, cellToString, normStr_idem]
  | num q => simp [standardize_city, cellToString, normStr_idem]
  | date d => simp [standardize_city, cellToString, normStr_idem]

/-- `standardize_name` is idempotent on cells. -/
theorem standardize_name_idem (c : Cell) :
    standardize_name (standardize_name c) = standardize_name c := by
  cases c with
  | missing => rfl
  | str s => simp [standardize_name, cellToString, normStr_idem]
  | num q => simp [standardize_name, cellToString, normStr_idem]
  | date d => simp [standardize_name, cellToString, normStr_idem]

/-- `standardize_product` is idempotent on cells. -/
theorem standardize_product_idem (c : Cell) :
    standardize_product (standardize_product c) = standardize_product c := by
  cases c with
  | missing => rfl
  | str s => simp [standardize_product, cellToString, normStr_idem]
  | num q => simp [standardize_product, cellToString, normStr_idem]
  | date d => simp [standardize_product, cellToString, normStr_idem]

/-! ## Facts about `drop_duplicates` -/

/-- Membership in the deduplicated list: exactly the values of the input
not already seen. -/
theorem mem_dropDupAux (x : Row) (seen l : List Row) :
    x ∈ dropDupAux seen l ↔ x ∈ l ∧ x ∉ seen := by
  induction l generalizing seen with
  | nil => simp [dropDupAux]
  | cons r rest ih =>
    unfold dropDupAux
    by_cases hr : r ∈ seen
    · rw [if_pos hr, ih]
      constructor
      · rintro ⟨hx, hs⟩
        exact ⟨List.mem_cons_of_mem r hx, hs⟩
      · rintro ⟨hx, hs⟩
        rcases List.mem_cons.mp hx with he | hx2
        · subst he
          exact absurd hr hs
        · exact ⟨hx2, hs⟩
    · rw [if_neg hr]
      constructor
      · intro hx
        rcases List.mem_cons.mp hx with he | hx2
        · subst he
          exact ⟨List.mem_cons_self x rest, hr⟩
        · rw [ih] at hx2
          obtain ⟨h1, h2⟩ := hx2
          refine ⟨List.mem_cons_of_mem r h1, fun hs => h2 (List.mem_cons_of_mem r hs)⟩
      · rintro ⟨hx, hs⟩
        rcases List.mem_cons.mp hx with he | hx2
        · subst he
          exact List.mem_cons_self x _
        · by_cases hxr : x = r
          · subst hxr
            exact List.mem_cons_self x _
          · refine List.mem_cons_of_mem r ?_
            rw [ih]
            exact ⟨hx2, fun h => by
              rcases List.mem_cons.mp h with h1 | h2
              · exact hxr h1
              · exact hs h2⟩

/-- The deduplicated list has no duplicates. -/
theorem nodup_dropDupAux (seen l : List Row) : (dropDupAux seen l).Nodup := by
  induction l generalizing seen with
  | nil => exact List.nodup_nil
  | cons r rest ih =>
    unfold dropDupAux
    by_cases hr : r ∈ seen
    · rw [if_pos hr]
      exact ih seen
    · rw [if_neg hr]
      refine List.nodup_cons.mpr ⟨fun hmem => ?_, ih (r :: seen)⟩
      rw [mem_dropDupAux] at hmem
      exact hmem.2 (List.mem_cons_self r seen)

/-- Deduplication keeps surviving rows in their original relative order. -/
theorem sublist_dropDupAux (seen l : List Row) : (dropDupAux seen l).Sublist l := by
  induction l generalizing seen with
  | nil => exact List.Sublist.refl []
  | cons r rest ih =>
    unfold dropDupAux
    by_cases hr : r ∈ seen
    · rw [if_pos hr]
      exact List.Sublist.cons r (ih seen)
    · rw [if_neg hr]
      exact List.Sublist.cons₂ r (ih (r :: seen))

/-- Deduplicating an already duplicate-free list changes nothing. -/
theorem dropDupAux_eq_self (seen l : List Row) (hn : l.Nodup)
    (hs : ∀ x ∈ l, x ∉ seen) : dropDupAux seen l = l := by
  induction l generalizing seen with
  | nil => rfl
  | cons r rest ih =>
    rw [List.nodup_cons] at hn
    unfold dropDupAux
    rw [if_neg (hs r (List.mem_cons_self r rest))]
    rw [ih (r :: seen) hn.2]
    intro x hx hmem
    rcases List.mem_cons.mp hmem with he | h2
    · subst he
      exact hn.1 hx
    · exact hs x (List.mem_cons_of_mem r hx) h2

/-- The specification's reading of the deduplicator: fold the rows left to
right, appending a row only when it has not appeared before.  First-seen
records are kept, in first-seen order. -/
def specDedup (l : List Row) : List Row :=
  l.foldl (fun acc r => if r ∈ acc then acc else acc ++ [r]) []

/-- The fold that keeps first occurrences agrees with `dropDupAux` for any
accumulator and seen set with the same members. -/
theorem specDedup_fold_eq (l : List Row) (acc seen : List Row)
    (h : ∀ x, x ∈ acc ↔ x ∈ seen) :
    l.foldl (fun acc r => if r ∈ acc then acc else acc ++ [r]) acc
      = acc ++ dropDupAux seen l := by
  induction l generalizing acc seen with
  | nil => simp [dropDupAux]
  | cons r rest ih =>
    rw [List.foldl_cons]
    unfold dropDupAux
    by_cases hr : r ∈ seen
    · rw [if_pos ((h r).mpr hr), if_pos hr]
      exact ih acc seen h
    · rw [if_neg (fun hx => hr ((h r).mp hx)), if_neg hr]
      rw [ih (acc ++ [r]) (r :: seen) (fun x => by
        simp only [List.mem_append, List.mem_cons, List.mem_singleton, List.not_mem_nil, or_false]
        rw [h x]
        tauto)]
      simp

/-- `drop_duplicates` is exactly the first-seen-keeping fold. -/
theorem dropDuplicates_eq_specDedup (l : List Row) : dropDuplicates l = specDedup l := by
  unfold dropDuplicates specDedup
  rw [specDedup_fold_eq l [] [] (fun x => Iff.rfl)]
  rfl

/-! ## Pipeline facts -/

/-- After `fillna(1)` the quantity column holds no NaN. -/
theorem processRow_quantity_isSome (r : RawRecord) : (processRow r).quantity.isSome = true := by
  simp [processRow, fillna]

/-- A flagged row carries the substituted quantity 1. -/
theorem processRow_flag_quantity (r : RawRecord)
    (h : (processRow r).quantity_was_missing = true) : (processRow r).quantity = some 1 := by
  have hq : toNumericCell r.quantity = none := by
    simpa [processRow, Option.isNone_iff_eq_none] using h
  simp [processRow, fillna, hq]

/-- The projection of an output record back to its pre-revenue row. -/
def rowOf (c : CleanRecord) : Row :=
  { order_id := c.order_id
    customer_name := c.customer_name
    city := c.city
    product := c.product
    price := c.price
    quantity := c.quantity
    order_date := c.order_date
    quantity_was_missing := c.quantity_was_missing }

/-- Attaching revenue and projecting back is the identity. -/
theorem rowOf_addRevenue (r : Row) : rowOf (addRevenue r) = r := rfl

/-- Adding the derived column is injective: two distinct rows stay distinct
output records. -/
theorem addRevenue_injective : Function.Injective addRevenue := by
  intro a b h
  have := congrArg rowOf h
  rwa [rowOf_addRevenue, rowOf_addRevenue] at this

/-- Every output record is the revenue-extension of a deduplicated,
critically-complete row that some input record processed to. -/
theorem mem_cleanRows_decomp (rows : List RawRecord) (c : CleanRecord)
    (hc : c ∈ cleanRows rows) :
    ∃ row, c = addRevenue row ∧ dropnaCritical row = true
      ∧ row ∈ dropDuplicates (rows.map processRow)
      ∧ ∃ raw ∈ rows, processRow raw = row := by
  unfold cleanRows at hc
  obtain ⟨row, hrow, heq⟩ := List.mem_map.mp hc
  obtain ⟨hmemD, hcrit⟩ := List.mem_filter.mp hrow
  have hmemP : row ∈ rows.map processRow := ((mem_dropDupAux row [] _).mp hmemD).1
  obtain ⟨raw, hraw, hpr⟩ := List.mem_map.mp hmemP
  exact ⟨row, heq.symm, hcrit, hmemD, raw, hraw, hpr⟩

/-! ## Claim C1: critical fields are present in every output record -/

/-- Claim C1: for every input dataset, every record in the cleaner's output
has a non-missing price, a non-missing quantity and a non-missing
order_date. -/
theorem c1_output_critical_fields_present (rows : List RawRecord) (c : CleanRecord)
    (hc : c ∈ cleanRows rows) :
    c.price.isSome = true ∧ c.quantity.isSome = true ∧ c.order_date.isSome = true := by
  obtain ⟨row, heq, hcrit, -, -⟩ := mem_cleanRows_decomp rows c hc
  subst heq
  unfold dropnaCritical at hcrit
  simp only [Bool.and_eq_true] at hcrit
  exact ⟨hcrit.1.1, hcrit.1.2, hcrit.2⟩

/-- A one-record dataset exercising C1. -/
def c1row : RawRecord :=
  { order_id := .num 1, customer_name := .missing, city := .missing, product := .missing,
    price := .num 10, quantity := .num 2, order_date := .date ⟨2023, 6, 3⟩ }

/-- The record C1's dataset cleans to. -/
def c1out : CleanRecord :=
  { order_id := .num 1, customer_name := .missing, city := .missing, product := .missing,
    price := some 10, quantity := some 2, order_date := some ⟨2023, 6, 3⟩,
    revenue := some 20, quantity_was_missing := false }

/-- C1's dataset cleans to exactly its one expected record. -/
theorem c1_eval : cleanRows [c1row] = [c1out] := by
  simp [cleanRows, processRow, standardize_name, standardize_city, standardize_product,
        toNumericCell, toDatetimeCell, fillna, dropDuplicates, dropDupAux, dropnaCritical,
        addRevenue, omul, c1row, c1out]
  norm_num

/-- Witness for C1 at a concrete dataset. -/
theorem c1_witness :
    c1out ∈ cleanRows [c1row]
      ∧ c1out.price.isSome = true ∧ c1out.quantity.isSome = true
      ∧ c1out.order_date.isSome = true := by
  have hm : c1out ∈ cleanRows [c1row] := by
    rw [c1_eval]
    exact List.mem_singleton.mpr rfl
  exact ⟨hm, c1_output_critical_fields_present [c1row] c1out hm⟩

/-! ## Claim C2: the quantity flag tracks exactly the unparseable raw quantities -/

/-- The raw quantity was absent, or was text that does not parse as a
number. -/
def quantityAbsentOrUnparseable (c : Cell) : Prop :=
  c = Cell.missing ∨ ∃ s, c = Cell.str s ∧ parseNumber s = none

/-- Whether a cell is not a datetime value.  `pd.read_csv` (no
`parse_dates`) never produces datetime cells, so every raw input satisfies
this. -/
def notDateCell (c : Cell) : Bool :=
  match c with
  | .date _ => false
  | _ => true

/-- For the cells `read_csv` can produce, numeric coercion yields NaN
exactly on absent or unparseable values. -/
theorem toNumericCell_none_iff (c : Cell) (h : notDateCell c = true) :
    toNumericCell c = none ↔ quantityAbsentOrUnparseable c := by
  cases c with
  | missing => simp [toNumericCell, quantityAbsentOrUnparseable]
  | str s =>
    simp only [toNumericCell, quantityAbsentOrUnparseable]
    constructor
    · intro hp
      exact Or.inr ⟨s, rfl, hp⟩
    · rintro (habs | ⟨t, hst, hp⟩)
      · exact absurd habs (by simp)
      · rw [Cell.str.injEq] at hst
        rw [hst]
        exact hp
  | num q => simp [toNumericCell, quantityAbsentOrUnparseable]
  | date d => simp [notDateCell] at h

/-- Claim C2: in every output record, `quantity_was_missing` is true iff
the record's raw quantity was absent or could not be parsed as a number,
and a flagged record carries quantity 1. -/
theorem c2_flag_iff_raw_quantity_missing (rows : List RawRecord)
    (hnd : ∀ r ∈ rows, notDateCell r.quantity = true)
    (c : CleanRecord) (hc : c ∈ cleanRows rows) :
    (c.quantity_was_missing = true → c.quantity = some 1)
      ∧ ∃ r ∈ rows, rowOf c = processRow r
        ∧ (c.quantity_was_missing = true ↔ quantityAbsentOrUnparseable r.quantity) := by
  obtain ⟨row, heq, -, -, raw, hraw, hpr⟩ := mem_cleanRows_decomp rows c hc
  subst heq
  constructor
  · intro hf
    have hq : (processRow raw).quantity = some 1 := by
      apply processRow_flag_quantity
      rw [hpr]
      exact hf
    show row.quantity = some 1
    rw [← hpr]
    exact hq
  · refine ⟨raw, hraw, ?_, ?_⟩
    · rw [rowOf_addRevenue, ← hpr]
    · have hflag : (addRevenue row).quantity_was_missing
          = (toNumericCell raw.quantity).isNone := by
        rw [show (addRevenue row).quantity_was_missing = row.quantity_was_missing from rfl,
          ← hpr]
        rfl
      rw [hflag, Option.isNone_iff_eq_none]
      exact toNumericCell_none_iff raw.quantity (hnd raw hraw)

/-- A one-record dataset with a missing quantity, exercising C2. -/
def c2row : RawRecord :=
  { order_id := .num 2, customer_name := .missing, city := .missing, product := .missing,
    price := .num 5, quantity := .missing, order_date := .date ⟨2023, 1, 1⟩ }

/-- The record C2's dataset cleans to: quantity substituted and flagged. -/
def c2out : CleanRecord :=
  { order_id := .num 2, customer_name := .missing, city := .missing, product := .missing,
    price := some 5, quantity := some 1, order_date := some ⟨2023, 1, 1⟩,
    revenue := some 5, quantity_was_missing := true }

/-- C2's dataset cleans to exactly its one expected record. -/
theorem c2_eval : cleanRows [c2row] = [c2out] := by
  simp [cleanRows, processRow, standardize_name, standardize_city, standardize_product,
        toNumericCell, toDatetimeCell, fillna, dropDuplicates, dropDupAux, dropnaCritical,
        addRevenue, omul, c2row, c2out]

/-- Witness for C2 at a concrete dataset with a missing raw quantity. -/
theorem c2_witness :
    (c2out.quantity_was_missing = true → c2out.quantity = some 1)
      ∧ ∃ r ∈ [c2row], rowOf c2out = processRow r
        ∧ (c2out.quantity_was_missing = true ↔ quantityAbsentOrUnparseable r.quantity) := by
  have hm : c2out ∈ cleanRows [c2row] := by
    rw [c2_eval]
    exact List.mem_singleton.mpr rfl
  refine c2_flag_iff_raw_quantity_missing [c2row] ?_ c2out hm
  intro r hr
  rw [List.mem_singleton] at hr
  subst hr
  rfl

/-! ## Claim C3: revenue is the product of price and quantity -/

/-- Claim C3: every output record's derived `revenue` equals the product of
its `price` and `quantity` (exactly, in the rational model of float64). -/
theorem c3_revenue_eq_price_mul_quantity (rows : List RawRecord) (c : CleanRecord)
    (hc : c ∈ cleanRows rows) :
    c.revenue = omul c.price c.quantity
      ∧ ∃ p q, c.price = some p ∧ c.quantity = some q ∧ c.revenue = some (p * q) := by
  obtain ⟨row, heq, hcrit, -, -⟩ := mem_cleanRows_decomp rows c hc
  subst heq
  refine ⟨rfl, ?_⟩
  unfold dropnaCritical at hcrit
  simp only [Bool.and_eq_true] at hcrit
  obtain ⟨p, hp⟩ := Option.isSome_iff_exists.mp hcrit.1.1
  obtain ⟨q, hq⟩ := Option.isSome_iff_exists.mp hcrit.1.2
  refine ⟨p, q, hp, hq, ?_⟩
  show omul row.price row.quantity = some (p * q)
  rw [hp, hq]
  rfl

/-- A one-record dataset exercising C3. -/
def c3row : RawRecord :=
  { order_id := .num 3, customer_name := .missing, city := .missing, product := .missing,
    price := .num 3, quantity := .num 4, order_date := .date ⟨2022, 12, 31⟩ }

/-- The record C3's dataset cleans to. -/
def c3out : CleanRecord :=
  { order_id := .num 3, customer_name := .missing, city := .missing, product := .missing,
    price := some 3, quantity := some 4, order_date := some ⟨2022, 12, 31⟩,
    revenue := some 12, quantity_was_missing := false }

/-- C3's dataset cleans to exactly its one expected record. -/
theorem c3_eval : cleanRows [c3row] = [c3out] := by
  simp [cleanRows, processRow, standardize_name, standardize_city, standardize_product,
        toNumericCell, toDatetimeCell, fillna, dropDuplicates, dropDupAux, dropnaCritical,
        addRevenue, omul, c3row, c3out]
  norm_num

/-- Witness for C3 at a concrete dataset. -/
theorem c3_witness :
    c3out.revenue = omul c3out.price c3out.quantity
      ∧ ∃ p q, c3out.price = some p ∧ c3out.quantity = some q
        ∧ c3out.revenue = some (p * q) := by
  have hm : c3out ∈ cleanRows [c3row] := by
    rw [c3_eval]
    exact List.mem_singleton.mpr rfl
  exact c3_revenue_eq_price_mul_quantity [c3row] c3out hm

/-! ## Claim C4: exact-duplicate removal -/

/-- Claim C4: no two output records are identical across all fields (with
missing comparing equal to missing, which is structural equality of the
record types here); deduplication is the first-seen-keeping fold, and the
survivors keep their original relative order (the deduplicated list is a
sublist of the processed input). -/
theorem c4_dedup_first_seen_order (rows : List RawRecord) :
    (cleanRows rows).Nodup
      ∧ dropDuplicates (rows.map processRow) = specDedup (rows.map processRow)
      ∧ (dropDuplicates (rows.map processRow)).Sublist (rows.map processRow) := by
  refine ⟨?_, dropDuplicates_eq_specDedup _, sublist_dropDupAux [] _⟩
  exact List.Nodup.map addRevenue_injective
    (List.Nodup.filter dropnaCritical (nodup_dropDupAux [] (rows.map processRow)))

/-! ## Claim C9: the critical-field filter never fires on quantity -/

/-- Claim C9: at the critical-field filter stage every row's quantity is
already present (the resolver substituted 1), so the `dropna` filter keeps
exactly the rows whose price and order_date are present -- no row is
dropped for a missing quantity. -/
theorem c9_filter_never_drops_for_quantity (rows : List RawRecord) :
    ((dropDuplicates (rows.map processRow)).all (fun row => row.quantity.isSome)) = true
      ∧ (dropDuplicates (rows.map processRow)).filter dropnaCritical
        = (dropDuplicates (rows.map processRow)).filter
            (fun row => row.price.isSome && row.order_date.isSome) := by
  have hq : ∀ row ∈ dropDuplicates (rows.map processRow), row.quantity.isSome = true := by
    intro row hrow
    have hmem : row ∈ rows.map processRow := ((mem_dropDupAux row [] _).mp hrow).1
    obtain ⟨raw, -, hpr⟩ := List.mem_map.mp hmem
    rw [← hpr]
    exact processRow_quantity_isSome raw
  constructor
  · exact List.all_eq_true.mpr hq
  · refine List.filter_congr ?_
    intro row hrow
    unfold dropnaCritical
    rw [hq row hrow]
    simp

/-! ## Claim C10: the flag participates in duplicate comparison -/

/-- Claim C10: two records that agree on all seven input fields after
processing, one with an absent-or-unparseable raw quantity (substituted to
1 and flagged) and one whose raw quantity parsed to 1 (unflagged), are
never merged by `drop_duplicates`: the flag is computed before duplicate
removal and participates in the comparison, so both processed rows are
distinct and both survive into the deduplicated dataframe. -/
theorem c10_flag_blocks_merge (rows : List RawRecord) (r1 r2 : RawRecord)
    (h1 : r1 ∈ rows) (h2 : r2 ∈ rows)
    (hq1 : toNumericCell r1.quantity = none)
    (hq2 : toNumericCell r2.quantity = some 1)
    (hagree : { processRow r1 with quantity_was_missing := false }
      = { processRow r2 with quantity_was_missing := false }) :
    processRow r1 ≠ processRow r2
      ∧ processRow r1 ∈ dropDuplicates (rows.map processRow)
      ∧ processRow r2 ∈ dropDuplicates (rows.map processRow)
      ∧ (processRow r1).quantity = some 1 ∧ (processRow r2).quantity = some 1 := by
  have hf1 : (processRow r1).quantity_was_missing = true := by
    simp [processRow, hq1]
  have hf2 : (processRow r2).quantity_was_missing = false := by
    simp [processRow, hq2]
  refine ⟨?_, ?_, ?_, ?_, ?_⟩
  · intro he
    rw [he, hf2] at hf1
    exact Bool.false_ne_true hf1
  · exact (mem_dropDupAux _ [] _).mpr ⟨List.mem_map_of_mem processRow h1, by simp⟩
  · exact (mem_dropDupAux _ [] _).mpr ⟨List.mem_map_of_mem processRow h2, by simp⟩
  · simp [processRow, hq1, fillna]
  · simp [processRow, hq2, fillna]

/-- Two records for C10: identical except that the first has no quantity
and the second has quantity 1. -/
def c10rowA : RawRecord :=
  { order_id := .num 5, customer_name := .missing, city := .missing, product := .missing,
    price := .num 2, quantity := .missing, order_date := .date ⟨2024, 2, 29⟩ }

/-- The partner record of `c10rowA` with an explicit quantity 1. -/
def c10rowB : RawRecord :=
  { order_id := .num 5, customer_name := .missing, city := .missing, product := .missing,
    price := .num 2, quantity := .num 1, order_date := .date ⟨2024, 2, 29⟩ }

/-- Witness for C10 at a concrete two-record dataset. -/
theorem c10_witness :
    processRow c10rowA ≠ processRow c10rowB
      ∧ processRow c10rowA ∈ dropDuplicates ([c10rowA, c10rowB].map processRow)
      ∧ processRow c10rowB ∈ dropDuplicates ([c10rowA, c10rowB].map processRow)
      ∧ (processRow c10rowA).quantity = some 1
      ∧ (processRow c10rowB).quantity = some 1 := by
  refine c10_flag_blocks_merge [c10rowA, c10rowB] c10rowA c10rowB ?_ ?_ ?_ ?_ ?_
  · exact List.mem_cons_self _ _
  · exact List.mem_cons_of_mem _ (List.mem_cons_self _ _)
  · rfl
  · rfl
  · rfl

/-! ## Claim C8: a missing input file stops the run before any work -/

/-- Claim C8: when the input file does not exist the run terminates with
the descriptive `FileNotFoundError` and produces no output dataset (the
output file is only written from a successful run's records). -/
theorem c8_missing_input_fails_without_output :
    run_main none = Except.error "Input file not found"
      ∧ producedOutput (run_main none) = false :=
  ⟨rfl, rfl⟩

/-! ## Claim C6: day-first date parsing, coercion of failures to missing -/

/-- Every month has at least 28 days. -/
theorem daysInMonth_ge_28 (y m : Nat) : 28 ≤ daysInMonth y m := by
  unfold daysInMonth
  split
  · split <;> omega
  · split <;> omega

/-- Claim C6: an ambiguous numeric date resolves day-before-month (for any
day and month both at most 12, the day-first reading wins), "03-06-2023"
parses as June 3rd and not March 6th, empty and unparseable strings coerce
to missing, and date coercion drops no record (one processed row per input
record; a record with an unparseable date simply carries a missing
order_date into the later filter). -/
theorem c6_dayfirst_and_coerce :
    (∀ a b y : Nat, 1 ≤ a → a ≤ 12 → 1 ≤ b → b ≤ 12 → resolveDMY a b y = some ⟨y, b, a⟩)
      ∧ parseDateDayfirst "03-06-2023" = some ⟨2023, 6, 3⟩
      ∧ parseDateDayfirst "03-06-2023" ≠ some ⟨2023, 3, 6⟩
      ∧ parseDateDayfirst "" = none
      ∧ parseDateDayfirst "not a date" = none
      ∧ (∀ r : RawRecord, ∀ s : String, r.order_date = Cell.str s →
          parseDateDayfirst s = none → (processRow r).order_date = none)
      ∧ (∀ rows : List RawRecord, (rows.map processRow).length = rows.length) := by
  refine ⟨?_, by decide, by decide, by decide, by decide, ?_, ?_⟩
  · intro a b y ha1 ha2 hb1 hb2
    unfold resolveDMY mkDate
    rw [if_pos ⟨hb1, hb2, ha1, le_trans (le_trans ha2 (by omega)) (daysInMonth_ge_28 y b)⟩]
  · intro r s hs hnone
    simp [processRow, toDatetimeCell, hs, hnone]
  · intro rows
    exact List.length_map rows processRow

/-- Witness for C6's general day-first component at day 3, month 6,
year 2023. -/
theorem c6_witness :
    resolveDMY 3 6 2023 = some ⟨2023, 6, 3⟩
      ∧ parseDateDayfirst "14-06-2023" = some ⟨2023, 6, 14⟩ := by
  refine ⟨c6_dayfirst_and_coerce.1 3 6 2023 ?_ ?_ ?_ ?_, by decide⟩ <;> omega

/-! ## Claim C5: what exactly does the title-casing do?

The claim describes title-casing as uppercasing the first letter of each
whitespace-delimited word and lowercasing the rest.  Python's `str.title`
instead starts a new word at every non-letter character (apostrophes,
hyphens, digits), so for example "jean-luc" becomes "Jean-Luc", not
"Jean-luc".  Below both readings are defined from their respective texts
and compared. -/

/-- The claim's normalizer, word for word: strip, collapse whitespace runs,
then uppercase the first letter of each whitespace-delimited word and
lowercase the rest of the word. -/
def specWsTitleAux (atWordStart : Bool) : List Char → List Char
  | [] => []
  | c :: rest =>
    if asciiWs c then c :: specWsTitleAux true rest
    else (if atWordStart then pyUpper c else pyLower c) :: specWsTitleAux false rest

/-- The claim's reading of the whole normalizer. -/
def claimNormalize (c : Cell) : Cell :=
  match c with
  | .missing => .missing
  | c => .str (String.mk (specWsTitleAux true (collapseWs (stripL (cellToString c).data))))

/-- Whether an optional previous character is a letter. -/
def prevIsAlpha (p : Option Char) : Bool :=
  match p with
  | none => false
  | some c => pyAlpha c

/-- Title-casing of one character given the previous character: a letter
after a non-letter (or at the very start) is uppercased, a letter after a
letter is lowercased, anything else is untouched. -/
def runTitleChar (p : Option Char) (c : Char) : Char :=
  if pyAlpha c then (if prevIsAlpha p then pyLower c else pyUpper c) else c

/-- Letter-run title-casing stated positionally: each character transformed
according to its predecessor. -/
def specRunTitle (l : List Char) : List Char :=
  (l.zip ((none : Option Char) :: l.map some)).map (fun pc => runTitleChar pc.2 pc.1)

/-- The amended normalizer: strip, collapse whitespace runs, then uppercase
every letter at the start of a maximal letter run (so apostrophes, hyphens
and digits start new words) and lowercase every other letter. -/
def specRunNormalize (c : Cell) : Cell :=
  match c with
  | .missing => .missing
  | c => .str (String.mk (specRunTitle (collapseWs (stripL (cellToString c).data))))

/-- `str.title`'s stateful recursion equals the positional letter-run
description, for any previous-character state. -/
theorem titleAux_eq_specRun (l : List Char) (p : Option Char) :
    titleAux (prevIsAlpha p) l
      = (l.zip (p :: l.map some)).map (fun pc => runTitleChar pc.2 pc.1) := by
  induction l generalizing p with
  | nil => rfl
  | cons c rest ih =>
    rw [titleAux, List.map_cons, List.zip_cons_cons, List.map_cons]
    have h1 : titleMap (prevIsAlpha p) c = runTitleChar p c := rfl
    have h2 : titleAux (pyAlpha c) rest
        = (rest.zip (some c :: rest.map some)).map (fun pc => runTitleChar pc.2 pc.1) :=
      ih (some c)
    rw [h1, h2]

/-- Counterexample to claim C5 as stated: on the non-missing raw text
"jean-luc" the claim's whitespace-word normalizer yields "Jean-luc", but
the code's `str.title()` treats the hyphen as a word boundary and yields
"Jean-Luc". -/
theorem c5_counterexample :
    claimNormalize (Cell.str "jean-luc") = Cell.str "Jean-luc"
      ∧ standardize_name (Cell.str "jean-luc") = Cell.str "Jean-Luc"
      ∧ Cell.str "Jean-luc" ≠ Cell.str "Jean-Luc" := by
  refine ⟨by decide, by decide, by decide⟩

/-- Claim C5 as amended: each of the three standardizers propagates missing
and otherwise strips, collapses whitespace runs, and title-cases with a new
word at every maximal run of letters (apostrophes, hyphens and digits start
new words, with no further special treatment); "mcdonald" and "MCDONALD"
both still normalize to "Mcdonald". -/
theorem c5_amended_normalizer_description :
    (∀ c : Cell, standardize_name c = specRunNormalize c)
      ∧ (∀ c : Cell, standardize_city c = specRunNormalize c)
      ∧ (∀ c : Cell, standardize_product c = specRunNormalize c)
      ∧ standardize_city (Cell.str "mcdonald") = Cell.str "Mcdonald"
      ∧ standardize_city (Cell.str " MCDONALD ") = Cell.str "Mcdonald"
      ∧ standardize_name Cell.missing = Cell.missing := by
  have key : ∀ c : Cell, c ≠ Cell.missing →
      Cell.str (normStr (cellToString c))
        = Cell.str (String.mk (specRunTitle (collapseWs (stripL (cellToString c).data)))) := by
    intro c _
    unfold normStr pyTitle
    rw [show (false : Bool) = prevIsAlpha none from rfl, titleAux_eq_specRun]
    rfl
  refine ⟨?_, ?_, ?_, by decide, by decide, rfl⟩
  · intro c
    cases c with
    | missing => rfl
    | str s => exact key (.str s) (by simp)
    | num q => exact key (.num q) (by simp)
    | date d => exact key (.date d) (by simp)
  · intro c
    cases c with
    | missing => rfl
    | str s => exact key (.str s) (by simp)
    | num q => exact key (.num q) (by simp)
    | date d => exact key (.date d) (by simp)
  · intro c
    cases c with
    | missing => rfl
    | str s => exact key (.str s) (by simp)
    | num q => exact key (.num q) (by simp)
    | date d => exact key (.date d) (by simp)

/-! ## Claim C7: is the cleaner idempotent?

Running the cleaner again on its own output (mapped back through the input
column set) recomputes `quantity_was_missing` from the now-present
quantities, so every flag comes back false.  On outputs that contain a
substituted (flagged) quantity the second run therefore differs from the
first; when no flag is set, the run is provably a fixed point. -/

/-- A float64 cell as it re-enters a raw column. -/
def optNumCell (o : Option ℚ) : Cell :=
  match o with
  | none => .missing
  | some q => .num q

/-- A datetime64 cell as it re-enters a raw column. -/
def optDateCell (o : Option Date) : Cell :=
  match o with
  | none => .missing
  | some d => .date d

/-- Restrict an output record back to the seven input columns ("mapped back
through the same column set"): drop `revenue` and `quantity_was_missing`,
keep every value. -/
def toRaw (c : CleanRecord) : RawRecord :=
  { order_id := c.order_id
    customer_name := c.customer_name
    city := c.city
    product := c.product
    price := optNumCell c.price
    quantity := optNumCell c.quantity
    order_date := optDateCell c.order_date }

/-- Numeric coercion undoes the cell embedding. -/
theorem toNumericCell_optNumCell (o : Option ℚ) : toNumericCell (optNumCell o) = o := by
  cases o <;> rfl

/-- Date coercion undoes the cell embedding. -/
theorem toDatetimeCell_optDateCell (o : Option Date) : toDatetimeCell (optDateCell o) = o := by
  cases o <;> rfl

/-- Re-processing a processed record whose quantity was not substituted
gives the record back: normalization is idempotent, coercion of already
typed cells is the identity, and the recomputed flag is false again. -/
theorem processRow_stable (raw : RawRecord)
    (hflag : (processRow raw).quantity_was_missing = false) :
    processRow (toRaw (addRevenue (processRow raw))) = processRow raw := by
  have hq : (toNumericCell raw.quantity).isNone = false := hflag
  unfold processRow toRaw addRevenue
  simp only [toNumericCell_optNumCell, toDatetimeCell_optDateCell]
  rw [Row.mk.injEq]
  refine ⟨rfl, standardize_name_idem _, standardize_city_idem _, standardize_product_idem _,
    rfl, rfl, rfl, ?_⟩
  simp [fillna, hq]

/-- Claim C7 as amended: when no output record carries a substituted
quantity (no `quantity_was_missing` flag set), running the cleaner on its
own output restricted to the input columns yields the identical dataset --
nothing is re-normalized, re-dropped or re-deduplicated. -/
theorem c7_idempotent_when_no_flag (rows : List RawRecord)
    (hflag : ∀ c ∈ cleanRows rows, c.quantity_was_missing = false) :
    cleanRows ((cleanRows rows).map toRaw) = cleanRows rows := by
  have hstep : ∀ r ∈ (dropDuplicates (rows.map processRow)).filter dropnaCritical,
      processRow (toRaw (addRevenue r)) = r := by
    intro r hr
    have hmemD : r ∈ dropDuplicates (rows.map processRow) := (List.mem_filter.mp hr).1
    have hmemP : r ∈ rows.map processRow := ((mem_dropDupAux r [] _).mp hmemD).1
    obtain ⟨raw, -, hpr⟩ := List.mem_map.mp hmemP
    have hout : addRevenue r ∈ cleanRows rows := by
      unfold cleanRows
      exact List.mem_map_of_mem addRevenue hr
    have hf : (processRow raw).quantity_was_missing = false := by
      rw [hpr]
      exact hflag (addRevenue r) hout
    rw [← hpr]
    exact processRow_stable raw hf
  have hmaps : ((cleanRows rows).map toRaw).map processRow
      = (dropDuplicates (rows.map processRow)).filter dropnaCritical := by
    show ((((dropDuplicates (rows.map processRow)).filter dropnaCritical).map
      addRevenue).map toRaw).map processRow = _
    rw [List.map_map, List.map_map]
    calc (((dropDuplicates (rows.map processRow)).filter dropnaCritical).map
            (processRow ∘ toRaw ∘ addRevenue))
        = (((dropDuplicates (rows.map processRow)).filter dropnaCritical).map id) :=
          List.map_congr_left hstep
      _ = (dropDuplicates (rows.map processRow)).filter dropnaCritical := List.map_id _
  have hnodup : ((dropDuplicates (rows.map processRow)).filter dropnaCritical).Nodup :=
    List.Nodup.filter dropnaCritical (nodup_dropDupAux [] (rows.map processRow))
  show ((dropDuplicates (((cleanRows rows).map toRaw).map processRow)).filter
    dropnaCritical).map addRevenue = cleanRows rows
  rw [hmaps]
  rw [show dropDuplicates ((dropDuplicates (rows.map processRow)).filter dropnaCritical)
      = (dropDuplicates (rows.map processRow)).filter dropnaCritical from
    dropDupAux_eq_self [] _ hnodup (by simp)]
  rw [show ((dropDuplicates (rows.map processRow)).filter dropnaCritical).filter dropnaCritical
      = (dropDuplicates (rows.map processRow)).filter dropnaCritical from
    List.filter_eq_self.mpr (fun a ha => (List.mem_filter.mp ha).2)]
  rfl

/-- A record whose quantity is absent: its cleaned form is flagged, so the
second run differs. -/
def c7row : RawRecord :=
  { order_id := .num 7, customer_name := .missing, city := .missing, product := .missing,
    price := .num 10, quantity := .missing, order_date := .date ⟨2023, 6, 3⟩ }

/-- The record `c7row` cleans to. -/
def c7out : CleanRecord :=
  { order_id := .num 7, customer_name := .missing, city := .missing, product := .missing,
    price := some 10, quantity := some 1, order_date := some ⟨2023, 6, 3⟩,
    revenue := some 10, quantity_was_missing := true }

/-- The first pass over `[c7row]`. -/
theorem c7_eval_first : cleanRows [c7row] = [c7out] := by
  simp [cleanRows, processRow, standardize_name, standardize_city, standardize_product,
        toNumericCell, toDatetimeCell, fillna, dropDuplicates, dropDupAux, dropnaCritical,
        addRevenue, omul, c7row, c7out]

/-- What `c7out` cleans to on the second pass: the flag is recomputed to
false. -/
def c7out2 : CleanRecord :=
  { order_id := .num 7, customer_name := .missing, city := .missing, product := .missing,
    price := some 10, quantity := some 1, order_date := some ⟨2023, 6, 3⟩,
    revenue := some 10, quantity_was_missing := false }

/-- The second pass over the restricted first output. -/
theorem c7_eval_second : cleanRows ((cleanRows [c7row]).map toRaw) = [c7out2] := by
  rw [c7_eval_first]
  simp [cleanRows, processRow, standardize_name, standardize_city, standardize_product,
        toNumericCell, toDatetimeCell, fillna, dropDuplicates, dropDupAux, dropnaCritical,
        addRevenue, omul, toRaw, optNumCell, optDateCell, c7out, c7out2]

/-- Counterexample to claim C7 as stated: on the one-record dataset with a
missing quantity, re-running the cleaner on its own output (restricted to
the input columns) yields a different dataset -- the substituted quantity 1
is no longer missing, so `quantity_was_missing` flips to false. -/
theorem c7_counterexample :
    cleanRows ((cleanRows [c7row]).map toRaw) ≠ cleanRows [c7row] := by
  rw [c7_eval_second, c7_eval_first]
  intro h
  have h2 : c7out2 = c7out := List.head_eq_of_cons_eq h
  have h3 : c7out2.quantity_was_missing = c7out.quantity_was_missing := by rw [h2]
  exact Bool.false_ne_true h3

/-- Witness for the amended C7 on a flag-free dataset. -/
theorem c7_witness :
    (∀ c ∈ cleanRows [c1row], c.quantity_was_missing = false)
      ∧ cleanRows ((cleanRows [c1row]).map toRaw) = cleanRows [c1row] := by
  have hflag : ∀ c ∈ cleanRows [c1row], c.quantity_was_missing = false := by
    rw [c1_eval]
    intro c hc
    rw [List.mem_singleton] at hc
    subst hc
    rfl
  exact ⟨hflag, c7_idempotent_when_no_flag [c1row] hflag⟩
